import Mathlib

/-!
Verification of the `moves` voice-driven presentation navigator.

Shallow embedding of the core components:
* `src/utils/text_normalizer.py`   (`normalize_text`)
* `src/core/components/chunk_producer.py`  (`generate_chunks`, `get_candidate_chunks`)
* `src/core/components/similarity_calculator.py`  (`_normalize_scores`, `compare`)
* `src/core/presentation_controller.py`  (decode step of `process_audio`,
  navigation step of `navigate_presentation`)

Strings are modelled at the Unicode-scalar-value level (`List Char`).
Python machine behaviour is modelled exactly where the repository exercises it:
whitespace splitting discards empty pieces, negative slices `xs[-W:]` use
truncated subtraction, `deque(maxlen=W)` keeps the last `W` entries, and
`list.sort(key=..., reverse=True)` is a stable descending sort.
-/

namespace Moves

/-! ### Text normalizer (`src/utils/text_normalizer.py`)

`normalize_text` lowercases and NFC-composes its input, removes the
emoji/pictographic ranges, and then builds a quotation-mark translation table
with `str.maketrans` and applies it with `str.translate`; the remaining stages
replace digit runs by their `num2words` cardinal spelling (hyphens becoming
spaces), replace every character outside `[\w\s'"` + backtick + `]` by a
space, and collapse whitespace runs and strip.

The translation table's keys as literally stored in the file are two- and
three-character mojibake strings (a damaged cp1254 round-trip encoding of the
smart quotation marks; this file is the only one in the repository stored
that way).  `str.maketrans` requires every string key to be a single
character and raises `ValueError` otherwise, and the call is evaluated on
every invocation of `normalize_text`, before any input-dependent branching —
so the real `normalize_text` raises on every input.  The embedding models
this error path: `maketrans` returns `none` on the stored table, and
`normalize_text` therefore returns `none` for every string.  The pipeline
stages after the failing call are still embedded so that the successful
branch of the model is faithful to the source text (`str.lower` on its ASCII
fragment, NFC as the identity on scalar values), but that branch is
unreachable. -/

/-- Model of `str.lower` (ASCII fragment). -/
def pyLower (c : Char) : Char := c.toLower

/-- The emoji / pictographic ranges removed by the first `re.sub` of
`normalize_text`: 1F600-1F64F, 1F300-1F5FF, 1F680-1F6FF, 1F1E0-1F1FF,
2702-27B0, 24C2-1F251. -/
def emojiChar (c : Char) : Bool :=
  (0x1f600 ≤ c.val && c.val ≤ 0x1f64f) ||
  (0x1f300 ≤ c.val && c.val ≤ 0x1f5ff) ||
  (0x1f680 ≤ c.val && c.val ≤ 0x1f6ff) ||
  (0x1f1e0 ≤ c.val && c.val ≤ 0x1f1ff) ||
  (0x2702 ≤ c.val && c.val ≤ 0x27b0) ||
  (0x24c2 ≤ c.val && c.val ≤ 0x1f251)

/-- The quotation-mark translation dict passed to `str.maketrans`, with its
keys exactly as stored in the source file: eight entries whose keys are two-
or three-character mojibake strings (the sixth and seventh entries carry the
same two-character key; a Python dict literal keeps the later of duplicate
keys).  The first four entries map to an ASCII apostrophe, the last four to
an ASCII double quote. -/
def quoteTable : List (String × Char) :=
  [("â€˜", '\''), ("â€™", '\''), ("â€š", '\''), ("â€›", '\''),
   ("â€œ", '"'), ("â€", '"'), ("â€", '"'), ("â€Ÿ", '"')]

/-- `str.maketrans(d)` for a dict with string keys and single-character
values: every key must be a single character, otherwise `ValueError` is
raised (`none`).  On success the table maps each key character to its value
and leaves every other character unchanged (for duplicate keys the later
entry wins, as in a Python dict literal). -/
def maketrans (d : List (String × Char)) : Option (Char → Char) :=
  if d.all (fun kv => kv.1.data.length == 1) then
    some (fun c =>
      match d.reverse.find? (fun kv => kv.1.data == [c]) with
      | some kv => kv.2
      | none => c)
  else none

/-- Python `\d` (ASCII fragment): the digits replaced by `num2words`. -/
def pyDigit (c : Char) : Bool := c.isDigit

/-- Python `\w` (word character): ASCII alphanumerics and underscore; scalar
values beyond ASCII are treated as word characters (Python additionally spaces
out non-ASCII punctuation, which none of the verified inputs contain). -/
def wordChar (c : Char) : Bool := c.isAlphanum || c = '_' || 0x80 ≤ c.val

/-- The characters kept by `re.sub(r"[^\w\s'\"` + backtick + `]", " ", text)`:
word characters, whitespace, apostrophe, double quote and backtick. -/
def keepChar (c : Char) : Bool :=
  wordChar c || c.isWhitespace || c = '\'' || c = '"' || c = Char.ofNat 96

/-! #### `num2words` model

`num2words` is the external cardinal-spelling collaborator
(`from num2words import num2words`).  It is modelled for English cardinals:
three-digit groups spelled with `and`, groups joined by `, ` and scale words up
to decillion, hyphenated tens (`twenty-one`).  The recursion over thousands
groups is driven by fuel so that every definition stays structurally
recursive. -/

def onesWords : List String :=
  ["zero", "one", "two", "three", "four", "five", "six", "seven", "eight",
   "nine", "ten", "eleven", "twelve", "thirteen", "fourteen", "fifteen",
   "sixteen", "seventeen", "eighteen", "nineteen"]

def tensWords : List String :=
  ["", "", "twenty", "thirty", "forty", "fifty", "sixty", "seventy",
   "eighty", "ninety"]

def scaleWords : List String :=
  ["", " thousand", " million", " billion", " trillion", " quadrillion",
   " quintillion", " sextillion", " septillion", " octillion", " nonillion",
   " decillion"]

/-- Spelling of `n < 100`. -/
def spellBelow100 (n : ℕ) : String :=
  if n < 20 then onesWords.getD n ""
  else
    tensWords.getD (n / 10) "" ++
      (if n % 10 = 0 then "" else "-" ++ onesWords.getD (n % 10) "")

/-- Spelling of `n < 1000`. -/
def spellBelow1000 (n : ℕ) : String :=
  if n < 100 then spellBelow100 n
  else
    onesWords.getD (n / 100) "" ++ " hundred" ++
      (if n % 100 = 0 then "" else " and " ++ spellBelow100 (n % 100))

/-- Little-endian base-1000 groups of `n`, with `fuel` bounding the recursion
depth (`fuel = n + 1` always suffices). -/
def toGroups : ℕ → ℕ → List ℕ
  | 0, _ => []
  | fuel + 1, n => if n = 0 then [] else n % 1000 :: toGroups fuel (n / 1000)

/-- `", ".join(parts)`. -/
def joinComma : List String → String
  | [] => ""
  | [s] => s
  | s :: rest => s ++ ", " ++ joinComma rest

/-- Spell the base-1000 groups (given little-endian with their scale indices),
most significant first, skipping zero groups, joined by `", "`. -/
def spellGroups (groups : List ℕ) : String :=
  joinComma
    (((groups.zip (List.range groups.length)).filterMap
      (fun gi =>
        if gi.1 = 0 then none
        else some (spellBelow1000 gi.1 ++ scaleWords.getD gi.2 ""))).reverse)

/-- Model of `num2words(n)` for English cardinals. -/
def num2words (n : ℕ) : String :=
  if n = 0 then "zero"
  else if n < 1000 then spellBelow1000 n
  else spellGroups (toGroups (n + 1) n)

/-- Numeric value of a digit run (`int(m.group(0))`). -/
def digitsToNat (run : List Char) : ℕ :=
  run.foldl (fun acc c => 10 * acc + (c.toNat - 48)) 0

/-- The characters substituted for one digit run:
`num2words(m.group(0)).replace("-", " ")`. -/
def spellRun (run : List Char) : List Char :=
  (num2words (digitsToNat run)).data.map (fun c => if c = '-' then ' ' else c)

/-- `re.sub(r"\d+", lambda m: num2words(m.group(0)).replace("-", " "), text)`:
replace every maximal ASCII digit run by its spelling.  `run` is the reversed
digit run read so far. -/
def digitReplaceAux : List Char → List Char → List Char
  | run, [] => if run = [] then [] else spellRun run.reverse
  | run, c :: cs =>
    if pyDigit c then digitReplaceAux (c :: run) cs
    else
      (if run = [] then [] else spellRun run.reverse) ++ c :: digitReplaceAux [] cs

def digitReplace (l : List Char) : List Char := digitReplaceAux [] l

/-- `re.sub(r"\s+", " ", text)`: every maximal whitespace run becomes a single
space. -/
def collapseWs : List Char → List Char
  | [] => []
  | c :: cs =>
    let rest := collapseWs cs
    if c.isWhitespace then
      if rest.head? = some ' ' then rest else ' ' :: rest
    else c :: rest

/-- `str.strip()`: drop leading and trailing whitespace. -/
def pyStrip (l : List Char) : List Char :=
  ((l.dropWhile Char.isWhitespace).reverse.dropWhile Char.isWhitespace).reverse

/-- The stages of the `normalize_text` pipeline around a successfully built
translation table, on scalar values. -/
def normChars (table : Char → Char) (l : List Char) : List Char :=
  pyStrip (collapseWs
    ((digitReplace (((l.map pyLower).filter (fun c => !emojiChar c)).map
        table)).map
      (fun c => if keepChar c then c else ' ')))

/-- Model of `text_normalizer.normalize_text`.  `str.maketrans` is evaluated
on every call; with the stored `quoteTable` it raises `ValueError`, so the
function raises (`none`) on every input and the rest of the pipeline is never
reached. -/
def normalize_text (s : String) : Option String :=
  match maketrans quoteTable with
  | none => none
  | some table => some ⟨normChars table s.data⟩


/-! ### Data model (`src/data/models.py`)

`Section`, `Chunk` and `SimilarityResult` are frozen dataclasses (value
equality, hashable), per `tests/data/test_models.py`.  Scores are modelled as
rationals. -/

structure Section where
  content : String
  section_index : ℕ
deriving DecidableEq

structure Chunk where
  partial_content : String
  source_sections : List Section
deriving DecidableEq

structure SimilarityResult where
  chunk : Chunk
  score : ℚ
deriving DecidableEq

/-! ### Chunk producer (`src/core/components/chunk_producer.py`) -/

/-- Python `str.split()`: split on whitespace runs, discarding empty pieces.
`cur` is the reversed word currently being read. -/
def pyWordsAux : List Char → List Char → List (List Char)
  | cur, [] => if cur = [] then [] else [cur.reverse]
  | cur, c :: cs =>
    if c.isWhitespace then
      if cur = [] then pyWordsAux [] cs else cur.reverse :: pyWordsAux [] cs
    else pyWordsAux (c :: cur) cs

/-- `s.split()` for a Python `str`. -/
def pyWords (s : String) : List String :=
  (pyWordsAux [] s.data).map (fun w => ⟨w⟩)

/-- Sort a list of sections by `section_index`
(`sorted(..., key=lambda s: s.section_index)`; stable). -/
def sortByIndex (l : List Section) : List Section :=
  l.insertionSort (fun a b => a.section_index ≤ b.section_index)

/-- A Python list comprehension whose element expression may raise: the first
raising element aborts the whole comprehension. -/
def traverseOption (f : α → Option β) : List α → Option (List β)
  | [] => some []
  | x :: xs =>
    match f x with
    | none => none
    | some y => (traverseOption f xs).map (fun ys => y :: ys)

/-- `generate_chunks(sections, window_size)`: flatten the sections into
`(word, owning_section)` pairs and return the empty list if there are fewer
than `window_size` words; otherwise build one `Chunk` per window position
whose `partial_content` is `normalize_text` of the joined window words and
whose `source_sections` are the distinct owning sections sorted by index.
Each chunk's construction calls `normalize_text`, which raises, so the
comprehension raises (`none`) whenever it would emit at least one chunk. -/
def generate_chunks (sections : List Section) (window_size : ℕ) :
    Option (List Chunk) :=
  let words_with_sources :=
    sections.flatMap (fun sec => (pyWords sec.content).map (fun w => (w, sec)))
  if words_with_sources.length < window_size then some []
  else
    traverseOption (fun i =>
      let window := (words_with_sources.drop i).take window_size
      (normalize_text (String.intercalate " " (window.map Prod.fst))).map
        (fun normalized =>
          { partial_content := normalized,
            source_sections := sortByIndex ((window.map Prod.snd).dedup) }))
      (List.range (words_with_sources.length - window_size + 1))

/-- `get_candidate_chunks(current_section, all_chunks)`:
`start, end = idx - 2, idx + 3`; keep the chunks all of whose source sections
have index in `[start, end]` (both comparisons in the source are `<=`), except
a chunk with exactly one source section whose index is `start` or `end`. -/
def get_candidate_chunks (current_section : Section) (all_chunks : List Chunk) :
    List Chunk :=
  let idx : ℤ := current_section.section_index
  let start := idx - 2
  let stop := idx + 3
  all_chunks.filter (fun chunk =>
    chunk.source_sections.all
      (fun s => decide (start ≤ (s.section_index : ℤ) ∧ (s.section_index : ℤ) ≤ stop))
    && !(match chunk.source_sections with
         | [s] => decide ((s.section_index : ℤ) = start ∨ (s.section_index : ℤ) = stop)
         | _ => false))

/-! ### Similarity calculator (`src/core/components/similarity_calculator.py`)

The two sub-metrics (`Semantic.compare`, `Phonetic.compare`) are external
collaborators; each returns one `SimilarityResult` per candidate whose score is
a deterministic function of the query and the candidate's `partial_content`, so
they are modelled as score functions `String → Chunk → ℚ` applied candidate by
candidate.  (`Semantic.compare` additionally sorts its result list; the fusion
below keys everything by candidate, so the metric's output order is
irrelevant.)  The Python code keys the normalized-score dict by `id(chunk)`;
since metric scores are functions of the chunk, value-equal chunks always carry
equal scores and the dict is faithfully modelled as a function of the chunk
value whose entry is the last result written for that chunk. -/

/-- Binary minimum on scores (Python `min`). -/
def ratMin (a b : ℚ) : ℚ := if a ≤ b then a else b

/-- Binary maximum on scores (Python `max`). -/
def ratMax (a b : ℚ) : ℚ := if b ≤ a then a else b

/-- `SimilarityCalculator._normalize_scores(results)`, as the lookup function
of the returned dict: scores below `0.5` are zeroed, surviving scores are
min-max normalized (all `1.0` if `max == min`), chunks without an entry
default to `0.0`. -/
def _normalize_scores (results : List SimilarityResult) : Chunk → ℚ :=
  if results = [] then fun _ => 0
  else
    let valid := (results.map SimilarityResult.score).filter
      (fun x => decide (mkRat 1 2 ≤ x))
    if h : valid = [] then fun _ => 0
    else
      let min_val := valid.foldl ratMin (valid.head h)
      let max_val := valid.foldl ratMax (valid.head h)
      fun ch =>
        match (results.filter (fun r => decide (r.chunk = ch))).getLast? with
        | none => 0
        | some r =>
          if max_val = min_val then if mkRat 1 2 ≤ r.score then 1 else 0
          else if mkRat 1 2 ≤ r.score then (r.score - min_val) / (max_val - min_val)
          else 0

/-- The descending-score order used by `final_results.sort(key=lambda x:
x.score, reverse=True)`. -/
def simRel (a b : SimilarityResult) : Prop := b.score ≤ a.score

instance : DecidableRel simRel := fun a b =>
  inferInstanceAs (Decidable (b.score ≤ a.score))

instance : IsTotal SimilarityResult simRel :=
  ⟨fun a b => le_total b.score a.score⟩

instance : IsTrans SimilarityResult simRel :=
  ⟨fun _ _ _ h h' => le_trans h' h⟩

/-- `SimilarityCalculator.compare(input_str, candidates)` with weights
`semantic_weight`, `phonetic_weight` and the two metrics as score functions:
empty candidates short-circuit to `[]`; otherwise both metrics run over the
candidates, each metric's scores are normalized independently, each candidate
gets `semantic_weight * sem_norm + phonetic_weight * pho_norm`, and the results
are sorted by score descending (stable). -/
def compare (semantic_weight phonetic_weight : ℚ) (sem pho : String → Chunk → ℚ)
    (input_str : String) (candidates : List Chunk) : List SimilarityResult :=
  if candidates = [] then []
  else
    let semantic_results := candidates.map (fun c => ⟨c, sem input_str c⟩)
    let phonetic_results := candidates.map (fun c => ⟨c, pho input_str c⟩)
    let semantic_norm := _normalize_scores semantic_results
    let phonetic_norm := _normalize_scores phonetic_results
    let final_results := candidates.map (fun c =>
      ⟨c, semantic_weight * semantic_norm c + phonetic_weight * phonetic_norm c⟩)
    final_results.insertionSort simRel

/-- Default constructor weights: `SimilarityCalculator(semantic_weight=0.4,
phonetic_weight=0.6)`. -/
def semantic_weight_default : ℚ := 0.4

def phonetic_weight_default : ℚ := 0.6

/-! ### Presentation controller (`src/core/presentation_controller.py`) -/

/-- Python negative slice `xs[-w:]` (for `w = 0` the slice is the whole
list). -/
def lastSlice (w : ℕ) (l : List α) : List α :=
  if w = 0 then l else l.drop (l.length - w)

/-- `deque(maxlen=w)` after `clear()` + `extend(l)`: the last `w` elements. -/
def dequeTrunc (w : ℕ) (l : List α) : List α := l.drop (l.length - w)

/-- One iteration of the transcript-publication logic of `process_audio`
(lines 71-76): when the recognizer result `text` is non-empty, the code calls
`normalize_text` on it — which raises, so the iteration raises (`none`; the
surrounding loop wraps it in a `RuntimeError`) and nothing is ever published
to `recent_words`.  The unreachable successful branch takes the last
`window_size` whitespace-separated words of the normalized text
(`normalized_text.strip().split()` equals `pyWords normalized_text`) and
replaces `recent_words` by them when they are non-empty and differ. -/
def decodeStep (window_size : ℕ) (recent_words : List String) (text : String) :
    Option (List String) :=
  if text = "" then some recent_words
  else
    match normalize_text text with
    | none => none
    | some normalized_text =>
      let words := lastSlice window_size (pyWords normalized_text)
      if words ≠ [] ∧ words ≠ recent_words then
        some (dequeTrunc window_size words)
      else some recent_words

/-- Arrow keys pressed by the navigator. -/
inductive Key where
  | right : Key
  | left : Key
deriving DecidableEq

/-- A synthetic keyboard event (`keyboard_controller.press/release`). -/
inductive KeyEvent where
  | press : Key → KeyEvent
  | release : Key → KeyEvent
deriving DecidableEq

/-- Navigator state mutated by a navigation step. -/
structure NavState where
  current_section : Section
  previous_recent_words : List String
deriving DecidableEq

/-- One navigation step (`navigate_presentation` lines 97-140), entered with
snapshot `current_words`:
candidate chunks are computed for the current section; if there are none the
step is skipped (`continue`) leaving the state untouched and emitting nothing.
Otherwise the candidates are ranked, the best chunk's last source section
becomes the target, and `navigation_distance = target_idx - current_idx`
right (positive) or left (negative) press+release pairs are emitted before the
state is updated.  `results[0]` on an empty result list and
`source_sections[-1]` on an empty section list would raise `IndexError`;
those (unreachable) failures are `none`.  The inter-key `time.sleep(0.01)` and
`update_live_display` have no effect on state or key events. -/
def navStep (semantic_weight phonetic_weight : ℚ) (sem pho : String → Chunk → ℚ)
    (chunks : List Chunk) (current_words : List String) (st : NavState) :
    Option (NavState × List KeyEvent) :=
  let candidate_chunks := get_candidate_chunks st.current_section chunks
  if candidate_chunks = [] then some (st, [])
  else
    let input_text := String.intercalate " " current_words
    match compare semantic_weight phonetic_weight sem pho input_text candidate_chunks with
    | [] => none
    | best_result :: _ =>
      match best_result.chunk.source_sections.getLast? with
      | none => none
      | some target_section =>
        let current_idx : ℤ := st.current_section.section_index
        let target_idx : ℤ := target_section.section_index
        let navigation_distance := target_idx - current_idx
        let events : List KeyEvent :=
          if navigation_distance ≠ 0 then
            let key := if navigation_distance > 0 then Key.right else Key.left
            (List.replicate navigation_distance.natAbs
              [KeyEvent.press key, KeyEvent.release key]).flatten
          else []
        some ({ current_section := target_section,
                previous_recent_words := current_words }, events)

/-! ### Specification-side definitions

These definitions follow the wording of the specification (not the source);
they exist to be compared with the source-derived definitions above. -/

/-- Total number of whitespace-separated words over the section contents
(the spec's `total_words(S)`). -/
def total_words (sections : List Section) : ℕ :=
  (sections.flatMap (fun sec => pyWords sec.content)).length

/-- The per-metric normalization as the spec words it: a raw score below `0.5`
is treated as `0`; the surviving scores are min-max normalized to `[0,1]`, all
becoming `1.0` when their minimum equals their maximum. -/
def specNormalize (scores : List ℚ) (x : ℚ) : ℚ :=
  if x < mkRat 1 2 then 0
  else
    match scores.filter (fun y => decide (mkRat 1 2 ≤ y)) with
    | [] => 0
    | s :: ss =>
      let mn := (s :: ss).foldl ratMin s
      let mx := (s :: ss).foldl ratMax s
      if mn = mx then 1 else (x - mn) / (mx - mn)

/-! ### Claim theorems -/

/-- `normalize_text` raises on every input: the stored translation-table keys
are not single characters, so the unconditional `str.maketrans` call raises
`ValueError` before any input-dependent work. -/
theorem normalize_text_eq_none (s : String) : normalize_text s = none := rfl

/-- A comprehension over a non-empty list whose element expression always
raises, raises. -/
theorem traverseOption_eq_none {α β : Type} (f : α → Option β)
    (hf : ∀ x, f x = none) (xs : List α) (hxs : xs ≠ []) :
    traverseOption f xs = none := by
  cases xs with
  | nil => exact absurd rfl hxs
  | cons x xs => simp [traverseOption, hf x]

/-- The only chunk list `generate_chunks` ever returns is the empty one: with
fewer than `window_size` words it returns `[]` before any chunk is built, and
otherwise the first chunk's `normalize_text` call raises. -/
theorem generate_chunks_some_eq_nil (S : List Section) (W : ℕ)
    (chunks : List Chunk) (h : generate_chunks S W = some chunks) :
    chunks = [] := by
  simp only [generate_chunks] at h
  split at h
  · exact (Option.some.inj h).symm
  · rw [traverseOption_eq_none _ (fun i => by
        simp [normalize_text_eq_none]) _ (by simp [List.range_eq_nil])] at h
    cases h

/-- C6: the claim says `normalize` is idempotent
(`normalize(normalize(x)) == normalize(x)`); the program's `normalize_text`
instead raises `ValueError` from `str.maketrans` on every input (the stored
quotation-table keys are multi-character mojibake strings), so it never
returns at all — contradicting the repository's own tests, which expect for
instance `normalize_text("") == ""`.  Evaluating the embedded code:
`normalize_text` raises (`none`) on every input. -/
theorem normalize_never_returns : ∀ x : String, normalize_text x = none :=
  fun x => normalize_text_eq_none x

/-- C7: the claim says `normalize` maps `“Hello” 21 tests` to `"hello"` in
ASCII double quotes followed by `twenty one tests`; the program instead
raises `ValueError` at the `str.maketrans` call on that input (it reaches
neither the quote mapping nor the digit spelling). -/
theorem normalize_quotes_failing_input :
    normalize_text "“Hello” 21 tests" = none :=
  normalize_text_eq_none _

/-- C1: for every chunk list produced by `generate_chunks`, every chunk
returned by `get_candidate_chunks` has all of its source sections' indices in
the inclusive window `[i-2, i+2]` and is not a singleton at `i-2` or `i+2`.
This holds of the program vacuously: a run of `generate_chunks` either
returns the empty chunk list (fewer than `window_size` words) or raises
inside `normalize_text`, so every produced chunk list is empty and
`get_candidate_chunks` returns no chunk from it at all.  (The
`get_candidate_chunks` filter itself is written with `start, end = idx - 2,
idx + 3` and both comparisons inclusive, but no chunk ever reaches it.) -/
theorem candidate_window_of_generated (S : List Section) (W : ℕ)
    (chunks : List Chunk) (hgen : generate_chunks S W = some chunks) :
    ∀ (current : Section), ∀ c ∈ get_candidate_chunks current chunks,
      (∀ s ∈ c.source_sections,
        (current.section_index : ℤ) - 2 ≤ (s.section_index : ℤ) ∧
        (s.section_index : ℤ) ≤ (current.section_index : ℤ) + 2) ∧
      (∀ s, c.source_sections = [s] →
        (s.section_index : ℤ) ≠ (current.section_index : ℤ) - 2 ∧
        (s.section_index : ℤ) ≠ (current.section_index : ℤ) + 2) := by
  have hnil : chunks = [] := generate_chunks_some_eq_nil S W chunks hgen
  subst hnil
  intro current c hc
  simp [get_candidate_chunks] at hc

/-- C1 (witness): a two-word section with `window_size = 5` makes
`generate_chunks` return the empty chunk list, and the window property holds
of its (empty) candidate set. -/
theorem candidate_window_of_generated_witness :
    generate_chunks [⟨"a b", 0⟩] 5 = some [] ∧
    (∀ (current : Section), ∀ c ∈ get_candidate_chunks current ([] : List Chunk),
      (∀ s ∈ c.source_sections,
        (current.section_index : ℤ) - 2 ≤ (s.section_index : ℤ) ∧
        (s.section_index : ℤ) ≤ (current.section_index : ℤ) + 2) ∧
      (∀ s, c.source_sections = [s] →
        (s.section_index : ℤ) ≠ (current.section_index : ℤ) - 2 ∧
        (s.section_index : ℤ) ≠ (current.section_index : ℤ) + 2)) :=
  ⟨by decide, candidate_window_of_generated [⟨"a b", 0⟩] 5 [] (by decide)⟩

/-- C3 (code bug): the claimed count `max(0, total_words(S) - W + 1)` is the
intent (the repository's chunk-producer tests expect non-empty output), but
each chunk's construction calls the raising `normalize_text`, so whenever
`total_words(S) ≥ W` the code raises instead of returning chunks.  Only the
claim's empty-list branch behaves as stated: fewer than `W` words return
`[]`.  At the failing input `[Section "a b c" 0]` with `W = 2` the code
raises where the claim demands `max(0, 3 - 2 + 1) = 2` chunks. -/
theorem generate_chunks_count_code_bug :
    (∀ (S : List Section) (W : ℕ), total_words S < W →
      generate_chunks S W = some []) ∧
    generate_chunks [⟨"a b c", 0⟩] 2 = none ∧
    max 0 ((total_words [⟨"a b c", 0⟩] : ℤ) - 2 + 1) = 2 := by
  refine ⟨?_, by decide, by decide⟩
  intro S W hlt
  have hlen : (S.flatMap (fun sec =>
      (pyWords sec.content).map (fun w => (w, sec)))).length = total_words S := by
    simp [total_words, List.length_flatMap, Function.comp_def]
  simp only [generate_chunks]
  rw [if_pos (by rw [hlen]; exact hlt)]

/-- C3 (witness): the empty-list branch of the count theorem at a concrete
input with fewer words than the window. -/
theorem generate_chunks_count_code_bug_witness :
    total_words [⟨"hi there", 0⟩] < 3 ∧
    generate_chunks [⟨"hi there", 0⟩] 3 = some [] :=
  ⟨by decide, generate_chunks_count_code_bug.1 [⟨"hi there", 0⟩] 3 (by decide)⟩

/-- C9: if `get_candidate_chunks` yields no candidates, the navigation step is
skipped: for arbitrary metrics the step succeeds (no failure), the state
(current section and previous words snapshot) is unchanged and no key event is
emitted; the result does not depend on the metrics, so no similarity
comparison influences it. -/
theorem navigator_skips_on_empty_candidates (semantic_weight phonetic_weight : ℚ)
    (sem pho : String → Chunk → ℚ) (chunks : List Chunk)
    (current_words : List String) (st : NavState)
    (h : get_candidate_chunks st.current_section chunks = []) :
    navStep semantic_weight phonetic_weight sem pho chunks current_words st =
      some (st, []) := by
  simp [navStep, h]

/-- C9 (witness): the skip theorem applied to an empty chunk list. -/
theorem navigator_skips_on_empty_candidates_witness :
    get_candidate_chunks (⟨"s", 0⟩ : Section) [] = [] ∧
    navStep (mkRat 2 5) (mkRat 3 5) (fun _ _ => 0) (fun _ _ => 0) [] []
        ⟨⟨"s", 0⟩, []⟩ =
      some (⟨⟨"s", 0⟩, []⟩, []) :=
  ⟨by decide, navigator_skips_on_empty_candidates (mkRat 2 5) (mkRat 3 5) (fun _ _ => 0)
    (fun _ _ => 0) [] [] ⟨⟨"s", 0⟩, []⟩ (by decide)⟩

/-- C5 (code bug): the claim says the decode thread publishes the last `W`
normalized words of every updated non-empty partial transcript; the code
calls the raising `normalize_text` on the transcript first, so on any
non-empty transcript the decode step raises (`process_audio` wraps the
`ValueError` in a `RuntimeError`) and never publishes to `recent_words`. -/
theorem decode_step_raises (window_size : ℕ) (recent_words : List String)
    (text : String) (htext : text ≠ "") :
    decodeStep window_size recent_words text = none := by
  simp [decodeStep, htext, normalize_text_eq_none]

/-- C5 (witness): the decode step raises on the concrete non-empty
transcript `a b !!!`. -/
theorem decode_step_raises_witness :
    ("a b !!!" : String) ≠ "" ∧ decodeStep 2 [] "a b !!!" = none :=
  ⟨by decide, decode_step_raises 2 [] "a b !!!" (by decide)⟩

/-- Zeta-expanded form of `compare` (for the proofs below). -/
theorem compare_def (semantic_weight phonetic_weight : ℚ)
    (sem pho : String → Chunk → ℚ) (input_str : String) (candidates : List Chunk) :
    compare semantic_weight phonetic_weight sem pho input_str candidates =
      if candidates = [] then []
      else
        List.insertionSort simRel (candidates.map (fun c =>
          ⟨c, semantic_weight *
              _normalize_scores (candidates.map (fun d => ⟨d, sem input_str d⟩)) c +
            phonetic_weight *
              _normalize_scores (candidates.map (fun d => ⟨d, pho input_str d⟩)) c⟩)) :=
  rfl

/-- C8: `compare` returns exactly one `SimilarityResult` per candidate, sorted
in descending order of score, and returns `[]` on the empty candidate list for
any metrics whatsoever (the metrics cannot influence that result). -/
theorem compare_ranked (semantic_weight phonetic_weight : ℚ)
    (sem pho : String → Chunk → ℚ) (input_str : String) (candidates : List Chunk) :
    (compare semantic_weight phonetic_weight sem pho input_str candidates).length =
      candidates.length ∧
    (compare semantic_weight phonetic_weight sem pho input_str candidates).Sorted
      simRel ∧
    compare semantic_weight phonetic_weight sem pho input_str [] = [] := by
  refine ⟨?_, ?_, by rw [compare_def, if_pos rfl]⟩
  · by_cases h : candidates = []
    · subst h
      rw [compare_def, if_pos rfl]
      rfl
    · rw [compare_def, if_neg h,
        (List.perm_insertionSort simRel _).length_eq, List.length_map]
  · by_cases h : candidates = []
    · subst h
      rw [compare_def, if_pos rfl]
      exact List.sorted_nil
    · rw [compare_def, if_neg h]
      exact List.sorted_insertionSort simRel _

/-- `_normalize_scores` is constantly `0` when every raw score is below
`0.5`. -/
theorem normalize_scores_all_low (results : List SimilarityResult)
    (h : ∀ r ∈ results, r.score < mkRat 1 2) :
    _normalize_scores results = fun _ => 0 := by
  simp only [_normalize_scores]
  split
  · rfl
  · rw [dif_pos]
    rw [List.filter_eq_nil_iff]
    intro a ha
    obtain ⟨r, hr, rfl⟩ := List.mem_map.mp ha
    simpa using not_le.mpr (h r hr)

/-- C10: if every raw score of both metrics is below `0.5` on a non-empty
candidate list, `compare` still returns one result per candidate, in the
original candidate order, each with final score exactly `0`; in particular the
caller receives a non-empty ranked list. -/
theorem compare_all_below_half (semantic_weight phonetic_weight : ℚ)
    (sem pho : String → Chunk → ℚ) (input_str : String) (candidates : List Chunk)
    (hne : candidates ≠ [])
    (hlow : ∀ ch ∈ candidates,
      sem input_str ch < mkRat 1 2 ∧ pho input_str ch < mkRat 1 2) :
    compare semantic_weight phonetic_weight sem pho input_str candidates =
      candidates.map (fun ch => ⟨ch, 0⟩) ∧
    compare semantic_weight phonetic_weight sem pho input_str candidates ≠ [] := by
  have hsem : _normalize_scores (candidates.map (fun d => ⟨d, sem input_str d⟩)) =
      fun _ => 0 := by
    refine normalize_scores_all_low _ ?_
    intro r hr
    obtain ⟨d, hd, rfl⟩ := List.mem_map.mp hr
    exact (hlow d hd).1
  have hpho : _normalize_scores (candidates.map (fun d => ⟨d, pho input_str d⟩)) =
      fun _ => 0 := by
    refine normalize_scores_all_low _ ?_
    intro r hr
    obtain ⟨d, hd, rfl⟩ := List.mem_map.mp hr
    exact (hlow d hd).2
  have heq : compare semantic_weight phonetic_weight sem pho input_str candidates =
      candidates.map (fun ch => ⟨ch, 0⟩) := by
    rw [compare_def, if_neg hne, hsem, hpho]
    simp only [mul_zero, add_zero]
    exact List.Sorted.insertionSort_eq
      (List.pairwise_map.mpr (List.pairwise_of_forall (fun _ _ => le_refl 0)))
  exact ⟨heq, by rw [heq]; simpa using hne⟩

/-- C10 (witness): two candidates whose semantic scores are `0` and phonetic
scores `1/4` (all below `0.5`) still produce a two-element all-zero ranking. -/
theorem compare_all_below_half_witness :
    ([⟨"a", []⟩, ⟨"b", []⟩] : List Chunk) ≠ [] ∧
    (∀ ch ∈ ([⟨"a", []⟩, ⟨"b", []⟩] : List Chunk),
      (0 : ℚ) < mkRat 1 2 ∧ mkRat 1 4 < mkRat 1 2) ∧
    compare (mkRat 2 5) (mkRat 3 5) (fun _ _ => 0) (fun _ _ => mkRat 1 4) "q"
        [⟨"a", []⟩, ⟨"b", []⟩] =
      [⟨⟨"a", []⟩, 0⟩, ⟨⟨"b", []⟩, 0⟩] :=
  ⟨by decide, by decide,
    ((compare_all_below_half (mkRat 2 5) (mkRat 3 5) (fun _ _ => 0)
      (fun _ _ => mkRat 1 4) "q"
      [⟨"a", []⟩, ⟨"b", []⟩] (by decide) (by decide)).1).trans (by decide)⟩

/-- Zeta-expanded form of `navStep` (for the proofs below). -/
theorem navStep_def (semantic_weight phonetic_weight : ℚ)
    (sem pho : String → Chunk → ℚ) (chunks : List Chunk)
    (current_words : List String) (st : NavState) :
    navStep semantic_weight phonetic_weight sem pho chunks current_words st =
      if get_candidate_chunks st.current_section chunks = [] then some (st, [])
      else
        match compare semantic_weight phonetic_weight sem pho
            (String.intercalate " " current_words)
            (get_candidate_chunks st.current_section chunks) with
        | [] => none
        | best_result :: _ =>
          match best_result.chunk.source_sections.getLast? with
          | none => none
          | some target_section =>
            some ({ current_section := target_section,
                    previous_recent_words := current_words },
              if (target_section.section_index : ℤ) -
                  (st.current_section.section_index : ℤ) ≠ 0 then
                (List.replicate
                  ((target_section.section_index : ℤ) -
                    (st.current_section.section_index : ℤ)).natAbs
                  [KeyEvent.press
                      (if (target_section.section_index : ℤ) -
                          (st.current_section.section_index : ℤ) > 0 then Key.right
                       else Key.left),
                   KeyEvent.release
                      (if (target_section.section_index : ℤ) -
                          (st.current_section.section_index : ℤ) > 0 then Key.right
                       else Key.left)]).flatten
              else []) :=
  rfl

/-- C2: in a navigation step whose ranked result list starts with `best` and
whose best chunk's last source section is `target` (index `t`, current index
`c`, `delta = t - c`): the controller presses and releases the Right arrow
exactly `delta` times when `delta > 0` (the Left arrow `|delta|` times when
`delta < 0`), in order, and sets `current_section` to the target (also
snapshotting the words); when `delta = 0` it emits no keystrokes. -/
theorem navigation_emits_delta_keystrokes (semantic_weight phonetic_weight : ℚ)
    (sem pho : String → Chunk → ℚ) (chunks : List Chunk)
    (current_words : List String) (st : NavState)
    (best : SimilarityResult) (rest : List SimilarityResult) (target : Section)
    (hcmp : compare semantic_weight phonetic_weight sem pho
        (String.intercalate " " current_words)
        (get_candidate_chunks st.current_section chunks) = best :: rest)
    (hlast : best.chunk.source_sections.getLast? = some target) :
    navStep semantic_weight phonetic_weight sem pho chunks current_words st =
      some ({ current_section := target, previous_recent_words := current_words },
        if (target.section_index : ℤ) - (st.current_section.section_index : ℤ) = 0
        then []
        else
          (List.replicate
            ((target.section_index : ℤ) -
              (st.current_section.section_index : ℤ)).natAbs
            (if (target.section_index : ℤ) -
                (st.current_section.section_index : ℤ) > 0 then
              [KeyEvent.press Key.right, KeyEvent.release Key.right]
             else
              [KeyEvent.press Key.left, KeyEvent.release Key.left])).flatten) := by
  have hne : get_candidate_chunks st.current_section chunks ≠ [] := by
    intro h0
    rw [h0] at hcmp
    rw [compare_def, if_pos rfl] at hcmp
    cases hcmp
  rw [navStep_def, if_neg hne, hcmp]
  dsimp only
  rw [hlast]
  dsimp only
  set d : ℤ := (target.section_index : ℤ) - (st.current_section.section_index : ℤ)
    with hd
  by_cases h0 : d = 0
  · rw [if_neg (fun hcon => hcon h0), if_pos h0]
  · rw [if_pos h0, if_neg h0]
    by_cases hpos : d > 0
    · rw [if_pos hpos, if_pos hpos]
    · rw [if_neg hpos, if_neg hpos]

/-- C2 (witness): current index 3, single candidate chunk ending at section 5,
both metrics constantly 1: two Right press/release pairs are emitted and the
current section becomes 5. -/
theorem navigation_emits_delta_keystrokes_witness :
    compare (mkRat 2 5) (mkRat 3 5) (fun _ _ => 1) (fun _ _ => 1)
        (String.intercalate " " ["w"])
        (get_candidate_chunks (⟨"three", 3⟩ : Section)
          [⟨"x", [⟨"three", 3⟩, ⟨"five", 5⟩]⟩]) =
      ⟨⟨"x", [⟨"three", 3⟩, ⟨"five", 5⟩]⟩, 1⟩ :: [] ∧
    (([⟨"three", 3⟩, ⟨"five", 5⟩] : List Section)).getLast? =
      some ⟨"five", 5⟩ ∧
    navStep (mkRat 2 5) (mkRat 3 5) (fun _ _ => 1) (fun _ _ => 1)
        [⟨"x", [⟨"three", 3⟩, ⟨"five", 5⟩]⟩] ["w"] ⟨⟨"three", 3⟩, []⟩ =
      some ({ current_section := ⟨"five", 5⟩, previous_recent_words := ["w"] },
        if ((5 : ℕ) : ℤ) - ((3 : ℕ) : ℤ) = 0 then []
        else
          (List.replicate (((5 : ℕ) : ℤ) - ((3 : ℕ) : ℤ)).natAbs
            (if ((5 : ℕ) : ℤ) - ((3 : ℕ) : ℤ) > 0 then
              [KeyEvent.press Key.right, KeyEvent.release Key.right]
             else
              [KeyEvent.press Key.left, KeyEvent.release Key.left])).flatten) := by
  have hcmp : compare (mkRat 2 5) (mkRat 3 5) (fun _ _ => 1) (fun _ _ => 1)
      (String.intercalate " " ["w"])
      (get_candidate_chunks (⟨"three", 3⟩ : Section)
        [⟨"x", [⟨"three", 3⟩, ⟨"five", 5⟩]⟩]) =
      ⟨⟨"x", [⟨"three", 3⟩, ⟨"five", 5⟩]⟩, 1⟩ :: [] := by
    have hcand : get_candidate_chunks (⟨"three", 3⟩ : Section)
        [⟨"x", [⟨"three", 3⟩, ⟨"five", 5⟩]⟩] =
        [⟨"x", [⟨"three", 3⟩, ⟨"five", 5⟩]⟩] := by decide
    rw [hcand, compare_def, if_neg (by decide)]
    have hnorm : _normalize_scores
        [⟨⟨"x", [⟨"three", 3⟩, ⟨"five", 5⟩]⟩, 1⟩]
        ⟨"x", [⟨"three", 3⟩, ⟨"five", 5⟩]⟩ = 1 := by decide
    simp only [List.map_cons, List.map_nil]
    rw [hnorm]
    have hscore : mkRat 2 5 * 1 + mkRat 3 5 * 1 = (1 : ℚ) := by
      norm_num [Rat.mkRat_eq_div]
    rw [hscore]
    rfl
  exact ⟨hcmp, by decide,
    navigation_emits_delta_keystrokes (mkRat 2 5) (mkRat 3 5)
      (fun _ _ => 1) (fun _ _ => 1) [⟨"x", [⟨"three", 3⟩, ⟨"five", 5⟩]⟩] ["w"]
      ⟨⟨"three", 3⟩, []⟩ ⟨⟨"x", [⟨"three", 3⟩, ⟨"five", 5⟩]⟩, 1⟩ []
      ⟨"five", 5⟩ hcmp (by decide)⟩

/-- The id-keyed normalized-score lookup of the engine agrees, for every
candidate, with the spec's per-metric normalization of the raw score list. -/
theorem normalize_scores_metric (m : Chunk → ℚ) (cands : List Chunk) (ch : Chunk)
    (hch : ch ∈ cands) :
    _normalize_scores (cands.map (fun d => ⟨d, m d⟩)) ch =
      specNormalize (cands.map m) (m ch) := by
  have hres : (cands.map (fun d => (⟨d, m d⟩ : SimilarityResult))) ≠ [] := by
    intro h0
    cases cands with
    | nil => cases hch
    | cons a as => cases h0
  have hscores : (cands.map (fun d => (⟨d, m d⟩ : SimilarityResult))).map
      SimilarityResult.score = cands.map m := by
    rw [List.map_map]
    rfl
  simp only [_normalize_scores]
  rw [if_neg hres, hscores]
  by_cases hv : (cands.map m).filter (fun x => decide (mkRat 1 2 ≤ x)) = []
  · rw [dif_pos hv]
    simp only [specNormalize, hv]
    split
    · rfl
    · rfl
  · rw [dif_neg hv]
    have hmemf : (⟨ch, m ch⟩ : SimilarityResult) ∈
        (cands.map (fun d => (⟨d, m d⟩ : SimilarityResult))).filter
          (fun r => decide (r.chunk = ch)) :=
      List.mem_filter.mpr ⟨List.mem_map.mpr ⟨ch, hch, rfl⟩, by simp⟩
    obtain ⟨r, hr⟩ : ∃ r, ((cands.map (fun d => (⟨d, m d⟩ : SimilarityResult))).filter
        (fun r => decide (r.chunk = ch))).getLast? = some r := by
      cases hgl : ((cands.map (fun d => (⟨d, m d⟩ : SimilarityResult))).filter
          (fun r => decide (r.chunk = ch))).getLast? with
      | none =>
        exact absurd (List.getLast?_eq_none_iff.mp hgl) (List.ne_nil_of_mem hmemf)
      | some r => exact ⟨r, rfl⟩
    have hr_eq : r = ⟨ch, m ch⟩ := by
      have hrmem := List.mem_of_mem_getLast? hr
      obtain ⟨hrm, hrc⟩ := List.mem_filter.mp hrmem
      obtain ⟨d, -, rfl⟩ := List.mem_map.mp hrm
      have hd : d = ch := of_decide_eq_true hrc
      rw [hd]
    rw [hr, hr_eq]
    obtain ⟨s, ss, hfil⟩ : ∃ s ss,
        (cands.map m).filter (fun x => decide (mkRat 1 2 ≤ x)) = s :: ss := by
      cases hfil : (cands.map m).filter (fun x => decide (mkRat 1 2 ≤ x)) with
      | nil => exact absurd hfil hv
      | cons s ss => exact ⟨s, ss, rfl⟩
    simp only [specNormalize, hfil, List.head_cons]
    by_cases hx : m ch < mkRat 1 2
    · rw [if_pos hx]
      by_cases hmm : (s :: ss).foldl ratMax s = (s :: ss).foldl ratMin s
      · rw [if_pos hmm, if_neg (not_le.mpr hx)]
      · rw [if_neg hmm, if_neg (not_le.mpr hx)]
    · have hle : mkRat 1 2 ≤ m ch := not_lt.mp hx
      rw [if_neg hx]
      by_cases hmm : (s :: ss).foldl ratMin s = (s :: ss).foldl ratMax s
      · rw [if_pos hmm.symm, if_pos hle, if_pos hmm]
      · rw [if_neg (fun hcon => hmm hcon.symm), if_pos hle, if_neg hmm]

/-- C4: for each metric independently the engine zeroes raw scores below
`0.5`, min-max normalizes the survivors (all `1.0` when their minimum equals
their maximum, zeroed scores staying `0`), and assigns every candidate the
final score `w_sem * sem_norm + w_pho * pho_norm` with the default weights
`0.4` and `0.6`: `compare` with the default weights returns exactly the
candidates paired with those fused scores (as a permutation, since the result
is then ranked). -/
theorem compare_fuses_normalized_metrics (sem pho : String → Chunk → ℚ)
    (input_str : String) (candidates : List Chunk) :
    (compare semantic_weight_default phonetic_weight_default sem pho input_str
        candidates).Perm
      (candidates.map (fun ch =>
        ⟨ch, semantic_weight_default *
            specNormalize (candidates.map (sem input_str)) (sem input_str ch) +
          phonetic_weight_default *
            specNormalize (candidates.map (pho input_str)) (pho input_str ch)⟩)) := by
  by_cases h : candidates = []
  · subst h
    rw [compare_def, if_pos rfl]
    exact List.Perm.refl _
  · rw [compare_def, if_neg h]
    refine (List.perm_insertionSort simRel _).trans ?_
    rw [List.map_congr_left (fun ch hch => ?_)]
    rw [normalize_scores_metric (sem input_str) candidates ch hch,
      normalize_scores_metric (pho input_str) candidates ch hch]

end Moves
